import Mathlib

/-!
Verification development for the prt_rl reinforcement-learning
experimentation library exercised by the repository's demo notebooks: the
EnvParams data model, the Random Policy, the episode Runner state machine,
and the GIF Recorder pipeline.  The library code itself is not shipped
with the notebooks, so each component below is modelled from the
specification's contract (doc comments say "Modelled from the spec:") and
the concrete values recorded in the notebooks.  Real-valued quantities are
embedded as rationals; possibly-infinite bounds as an extended type.
-/

namespace PrtRL

/-- Modelled from the spec: the error taxonomy of the core
(InvalidAction, InvalidObservation, RecorderFinalizeError,
ConfigurationError). -/
inductive RLError where
  | InvalidAction
  | InvalidObservation
  | RecorderFinalizeError
  | ConfigurationError
deriving DecidableEq, Repr

/-- Modelled from the spec: a space bound component, which may be a finite
number or plus/minus infinity (the VmasWrapper discovery adapter reports
observation bounds of -inf and +inf). -/
inductive Bound where
  | negInf
  | fin (q : ℚ)
  | posInf
deriving DecidableEq, Repr

/-- Order on bounds: -inf is below everything, +inf above everything. -/
def Bound.ble : Bound → Bound → Bool
  | .negInf, _ => true
  | _, .posInf => true
  | .fin x, .fin y => decide (x ≤ y)
  | _, _ => false

/-- Is the bound a finite number? -/
def Bound.isFin : Bound → Bool
  | .fin _ => true
  | _ => false

/-- Number of scalar components of a tensor with the given shape. -/
def flatSize (shape : List Nat) : Nat := shape.foldl (· * ·) 1

/-- Modelled from the spec: the description of one action or observation
space — continuous with a shape and per-component min/max bounds, or
discrete with a count. -/
inductive SpaceSpec where
  | continuous (shape : List Nat) (lo hi : List Bound)
  | discrete (count : Nat)
deriving DecidableEq, Repr

/-- Modelled from the spec: a space description is well formed when, for a
continuous space, the bound-array lengths match the (flattened) shape
length; a discrete space carries a count instead of bounds. -/
def SpaceSpec.wellFormed : SpaceSpec → Bool
  | .continuous shape lo hi =>
      lo.length == flatSize shape && hi.length == flatSize shape
  | .discrete _ => true

/-- Modelled from the spec: EnvParams — the immutable description of an
environment's action and observation spaces.  Immutability is intrinsic to
this functional embedding: no operation below mutates a constructed
value. -/
structure EnvParams where
  action : SpaceSpec
  observation : SpaceSpec
deriving DecidableEq, Repr

/-- Modelled from the spec: the validated constructor of EnvParams; a
malformed description (mismatched shape/bound lengths) yields
ConfigurationError. -/
def EnvParams.make (a o : SpaceSpec) : Except RLError EnvParams :=
  if a.wellFormed && o.wellFormed then .ok ⟨a, o⟩
  else .error .ConfigurationError

/-- Modelled from the spec: MultiAgentEnvParams — `num_agents ≥ 1` with a
single EnvParams shared by all agents. -/
structure MultiAgentEnvParams where
  num_agents : Nat
  agent : EnvParams
deriving DecidableEq, Repr

/-- Modelled from the spec: the validated constructor of
MultiAgentEnvParams; `num_agents < 1` yields ConfigurationError. -/
def MultiAgentEnvParams.make (n : Nat) (ag : EnvParams) :
    Except RLError MultiAgentEnvParams :=
  if 1 ≤ n then .ok ⟨n, ag⟩ else .error .ConfigurationError

/-- Modelled from the spec: an Action — a continuous vector of components
or a discrete choice. -/
inductive Action where
  | cont (vals : List ℚ)
  | disc (k : Nat)
deriving DecidableEq, Repr

/-- An Observation: a numeric tensor, flattened. -/
abbrev Obs := List ℚ

/-- A Frame: a 2D pixel array. -/
abbrev Frame := List (List ℚ)

/-- One continuous component drawn uniformly from `[a, b]` given a unit
sample `t ∈ [0, 1]`: the value `a + t * (b - a)` when both bounds are
finite. -/
def sampleComp (a b : Bound) (t : ℚ) : ℚ :=
  match a, b with
  | .fin x, .fin y => x + t * (y - x)
  | _, _ => 0

/-- Componentwise continuous sampling along the bound lists. -/
def sampleContinuous : List Bound → List Bound → List ℚ → List ℚ
  | a :: as, b :: bs, t :: ts => sampleComp a b t :: sampleContinuous as bs ts
  | _, _, _ => []

/-- Modelled from the spec: uniform sampling over `{0, …, count-1}` from a
unit sample, via the floor of `t * count` clamped into range. -/
def sampleDiscrete (count : Nat) (t : ℚ) : Nat :=
  min (Int.toNat ⌊t * (count : ℚ)⌋) (count - 1)

/-- Modelled from the spec: RandomPolicy.select_action — for a continuous
action space, each component is sampled independently and uniformly from
`[min, max]`; for a discrete space, uniformly over `{0, …, count-1}`.  The
unit-interval samples `u` stand for the policy's random source; the stream
is padded and truncated to the flattened action shape. -/
def RandomPolicy.select_action (p : EnvParams) (u : List ℚ) : Action :=
  match p.action with
  | .continuous shape lo hi =>
      let n := flatSize shape
      .cont (sampleContinuous lo hi ((u ++ List.replicate n 0).take n))
  | .discrete c => .disc (sampleDiscrete c (u.headD 0))

/-- Modelled from the spec: the multi-agent variant samples one Action per
agent from the shared agent space, each from its own slice of the random
source. -/
def RandomPolicy.select_action_multi (mp : MultiAgentEnvParams)
    (us : List (List ℚ)) : List Action :=
  (List.range mp.num_agents).map
    (fun i => RandomPolicy.select_action mp.agent (us.getD i []))

/-- Componentwise in-bounds check of sampled continuous values against
bound lists. -/
def contInBounds : List Bound → List Bound → List ℚ → Bool
  | _, _, [] => true
  | a :: as, b :: bs, v :: vs =>
      Bound.ble a (.fin v) && Bound.ble (.fin v) b && contInBounds as bs vs
  | _, _, _ :: _ => false

/-- An Action conforms to a space description when its kind matches, its
length matches the flattened shape, and every component is within the
declared bounds (for discrete: an integer in `[0, count)`). -/
def Action.conforms : Action → SpaceSpec → Bool
  | .cont vals, .continuous shape lo hi =>
      vals.length == flatSize shape && contInBounds lo hi vals
  | .disc k, .discrete c => decide (k < c)
  | _, _ => false

/-- An Action is in bounds for a space when every component is within the
declared bounds (length aside). -/
def Action.inBounds : Action → SpaceSpec → Bool
  | .cont vals, .continuous _ lo hi => contInBounds lo hi vals
  | .disc k, .discrete c => decide (k < c)
  | _, _ => false

/-- Componentwise ordering of finite bound lists. -/
def saneBounds : List Bound → List Bound → Bool
  | .fin x :: as, .fin y :: bs => decide (x ≤ y) && saneBounds as bs
  | _, _ => true

/-- A sampling-sane space: continuous bounds are finite and ordered
componentwise, a discrete space has a positive count. -/
def SpaceSpec.sane : SpaceSpec → Bool
  | .continuous _ lo hi =>
      lo.all Bound.isFin && hi.all Bound.isFin && saneBounds lo hi
  | .discrete c => decide (0 < c)

lemma sampleComp_mem (x y t : ℚ) (hxy : x ≤ y) (h0 : 0 ≤ t) (h1 : t ≤ 1) :
    x ≤ sampleComp (.fin x) (.fin y) t ∧ sampleComp (.fin x) (.fin y) t ≤ y := by
  simp only [sampleComp]
  constructor
  · nlinarith
  · nlinarith

lemma sampleContinuous_inBounds (lo hi : List Bound) (ts : List ℚ)
    (hfinLo : lo.all Bound.isFin = true) (hfinHi : hi.all Bound.isFin = true)
    (hsane : saneBounds lo hi = true)
    (hts : ∀ t ∈ ts, 0 ≤ t ∧ t ≤ 1) :
    contInBounds lo hi (sampleContinuous lo hi ts) = true := by
  induction lo generalizing hi ts with
  | nil =>
    cases hi <;> cases ts <;> simp [sampleContinuous, contInBounds]
  | cons a as ih =>
    cases hi with
    | nil => cases ts <;> simp [sampleContinuous, contInBounds]
    | cons b bs =>
      cases ts with
      | nil => simp [sampleContinuous, contInBounds]
      | cons t ts' =>
        simp only [List.all_cons, Bool.and_eq_true] at hfinLo hfinHi
        obtain ⟨ha, has⟩ := hfinLo
        obtain ⟨hb, hbs⟩ := hfinHi
        cases a with
        | negInf => simp [Bound.isFin] at ha
        | posInf => simp [Bound.isFin] at ha
        | fin x =>
          cases b with
          | negInf => simp [Bound.isFin] at hb
          | posInf => simp [Bound.isFin] at hb
          | fin y =>
            simp only [saneBounds, Bool.and_eq_true, decide_eq_true_eq] at hsane
            obtain ⟨hxy, hsane'⟩ := hsane
            have ht := hts t (by simp)
            have hmem := sampleComp_mem x y t hxy ht.1 ht.2
            simp only [sampleContinuous, contInBounds, Bool.and_eq_true]
            refine ⟨⟨?_, ?_⟩, ?_⟩
            · simp [Bound.ble, hmem.1]
            · simp [Bound.ble, hmem.2]
            · exact ih bs ts' has hbs hsane'
                (fun t' ht' => hts t' (by simp [ht']))

lemma sampleDiscrete_lt (c : Nat) (hc : 0 < c) (t : ℚ) :
    sampleDiscrete c t < c := by
  unfold sampleDiscrete
  exact Nat.lt_of_le_of_lt (Nat.min_le_right _ _) (Nat.sub_lt hc Nat.one_pos)

lemma select_action_inBounds (p : EnvParams) (u : List ℚ)
    (hu : ∀ t ∈ u, 0 ≤ t ∧ t ≤ 1) (hsane : p.action.sane = true) :
    (RandomPolicy.select_action p u).inBounds p.action = true := by
  unfold RandomPolicy.select_action
  cases hact : p.action with
  | continuous shape lo hi =>
    rw [hact] at hsane
    simp only [SpaceSpec.sane, Bool.and_eq_true] at hsane
    obtain ⟨⟨hlo, hhi⟩, hb⟩ := hsane
    simp only [Action.inBounds]
    apply sampleContinuous_inBounds lo hi _ hlo hhi hb
    intro t ht
    have hmem := List.mem_of_mem_take ht
    rcases List.mem_append.mp hmem with h | h
    · exact hu t h
    · have := List.eq_of_mem_replicate h
      subst this
      exact ⟨le_refl 0, by norm_num⟩
  | discrete c =>
    rw [hact] at hsane
    simp only [SpaceSpec.sane, decide_eq_true_eq] at hsane
    simp only [Action.inBounds, decide_eq_true_eq]
    exact sampleDiscrete_lt c hsane _

/-- C1: for every EnvParams with a (sampling-sane) continuous action space,
every Action produced by RandomPolicy.select_action lies componentwise
within `[action_min, action_max]`, and for a discrete space of size count
the value is in `[0, count)`; this holds for any number of repeated draws
from the unit-interval random source, and agentwise for the multi-agent
variant. -/
theorem randomPolicy_select_action_within_bounds
    (p : EnvParams) (mp : MultiAgentEnvParams)
    (draws : List (List ℚ)) (us : List (List ℚ))
    (hdraws : ∀ u ∈ draws, ∀ t ∈ u, 0 ≤ t ∧ t ≤ 1)
    (hus : ∀ u ∈ us, ∀ t ∈ u, 0 ≤ t ∧ t ≤ 1)
    (hp : p.action.sane = true) (hmp : mp.agent.action.sane = true) :
    (∀ u ∈ draws, (RandomPolicy.select_action p u).inBounds p.action = true) ∧
    (∀ a ∈ RandomPolicy.select_action_multi mp us,
        a.inBounds mp.agent.action = true) := by
  constructor
  · intro u hu
    exact select_action_inBounds p u (hdraws u hu) hp
  · intro a ha
    simp only [RandomPolicy.select_action_multi, List.mem_map] at ha
    obtain ⟨i, -, rfl⟩ := ha
    apply select_action_inBounds _ _ _ hmp
    intro t ht
    rw [List.getD_eq_getElem?_getD] at ht
    rcases hget : us[i]? with _ | u'
    · rw [hget] at ht
      simp at ht
    · rw [hget] at ht
      obtain ⟨hlt, hEq⟩ := List.getElem?_eq_some.mp hget
      exact hus u' (hEq ▸ List.getElem_mem hlt) t ht

/-- C1 witness: end-to-end scenario A's single-agent space shape (continuous
shape (3,), bounds -1..1) and a 2-agent discrete space, with concrete unit
samples drawn from the endpoints. -/
theorem randomPolicy_select_action_within_bounds_witness :
    (∀ u ∈ [[(0:ℚ), 1, 0], [1, 1, 0]], ∀ t ∈ u, (0:ℚ) ≤ t ∧ t ≤ 1) ∧
    (∀ u ∈ [[(1:ℚ)]], ∀ t ∈ u, (0:ℚ) ≤ t ∧ t ≤ 1) ∧
    (∀ u ∈ [[(0:ℚ), 1, 0], [1, 1, 0]],
       (RandomPolicy.select_action
          ⟨.continuous [3] [.fin (-1), .fin (-1), .fin (-1)]
            [.fin 1, .fin 1, .fin 1], .discrete 2⟩ u).inBounds
          (.continuous [3] [.fin (-1), .fin (-1), .fin (-1)]
            [.fin 1, .fin 1, .fin 1]) = true) := by
  refine ⟨by decide, by decide, ?_⟩
  exact (randomPolicy_select_action_within_bounds
    ⟨.continuous [3] [.fin (-1), .fin (-1), .fin (-1)]
      [.fin 1, .fin 1, .fin 1], .discrete 2⟩
    ⟨2, ⟨.discrete 4, .discrete 4⟩⟩
    [[(0:ℚ), 1, 0], [1, 1, 0]] [[(1:ℚ)]]
    (by decide) (by decide) (by decide) (by decide)).1

/-- Modelled from the spec: the encoded output artifact of a Recorder — an
animated image at the configured path whose inter-frame delay is `1/fps`. -/
structure Artifact where
  path : String
  frames : List Frame
  delay : ℚ
deriving DecidableEq, Repr

/-- The artifact's frame-count metadata. -/
def Artifact.frame_count (a : Artifact) : Nat := a.frames.length

/-- The artifact's FPS-derived duration: frame count times inter-frame
delay. -/
def Artifact.duration (a : Artifact) : ℚ := (a.frames.length : ℚ) * a.delay

/-- Modelled from the spec: GifRecorder — accumulates rendered frames in
an in-memory trace and flushes them to an encoded animation on
finalize.  Parameters: `filename` (path) and `fps` (positive number
controlling the inter-frame delay `1/fps`). -/
structure GifRecorder where
  filename : String
  fps : ℚ
  frames : List Frame
deriving DecidableEq, Repr

/-- Modelled from the spec: `capture` appends a Frame to the in-memory
trace. -/
def GifRecorder.capture (r : GifRecorder) (f : Frame) : GifRecorder :=
  { r with frames := r.frames ++ [f] }

/-- Capturing a whole list of frames in order. -/
def GifRecorder.captureAll (r : GifRecorder) (fs : List Frame) : GifRecorder :=
  fs.foldl GifRecorder.capture r

/-- Modelled from the spec: `save` (finalize) encodes the accumulated
trace into an output artifact at the configured path and frame rate; a
finalize with zero frames is the documented no-op (it writes nothing and
raises nothing). -/
def GifRecorder.save (r : GifRecorder) : Except RLError (Option Artifact) :=
  if r.frames.isEmpty then .ok none
  else .ok (some ⟨r.filename, r.frames, 1 / r.fps⟩)

lemma captureAll_frames (fs : List Frame) (r : GifRecorder) :
    (r.captureAll fs).frames = r.frames ++ fs := by
  induction fs generalizing r with
  | nil => simp [GifRecorder.captureAll]
  | cons f fs ih =>
    simp only [GifRecorder.captureAll, List.foldl_cons] at *
    rw [ih]
    simp [GifRecorder.capture]

lemma captureAll_mk (filename : String) (fps : ℚ) (r0 fs : List Frame) :
    GifRecorder.captureAll ⟨filename, fps, r0⟩ fs = ⟨filename, fps, r0 ++ fs⟩ := by
  induction fs generalizing r0 with
  | nil => simp [GifRecorder.captureAll]
  | cons f fs ih =>
    show GifRecorder.captureAll ⟨filename, fps, r0 ++ [f]⟩ fs = _
    rw [ih]
    simp

/-- C5: a Recorder that captures exactly N frames and is finalized
produces an artifact whose frame count equals N, whose FPS-derived
duration equals N / fps, and whose inter-frame delay is 1/fps. -/
theorem gifRecorder_capture_save_roundtrip
    (filename : String) (fps : ℚ) (fs : List Frame) (N : Nat)
    (hN : fs.length = N) (hne : fs ≠ []) :
    ∃ a : Artifact,
      (GifRecorder.captureAll ⟨filename, fps, []⟩ fs).save = .ok (some a) ∧
      a.frame_count = N ∧
      a.duration = (N : ℚ) / fps ∧
      a.delay = 1 / fps := by
  rw [captureAll_mk, List.nil_append]
  refine ⟨⟨filename, fs, 1 / fps⟩, ?_, ?_, ?_, rfl⟩
  · rw [GifRecorder.save]
    simp only [List.isEmpty_iff]
    rw [if_neg hne]
  · simp [Artifact.frame_count, hN]
  · simp only [Artifact.duration, hN]
    rw [mul_one_div]

/-- C5 witness: three captured frames at fps 10 give an artifact with
frame count 3, delay 1/10 and duration 3/10. -/
theorem gifRecorder_capture_save_roundtrip_witness :
    ([[[(0:ℚ)]], [[1]], [[2]]] : List Frame).length = 3 ∧
    ∃ a : Artifact,
      (GifRecorder.captureAll ⟨"vmas_wrapper.gif", 10, []⟩
          [[[(0:ℚ)]], [[1]], [[2]]]).save = .ok (some a) ∧
      a.frame_count = 3 ∧
      a.duration = (3 : ℚ) / 10 ∧
      a.delay = 1 / 10 :=
  ⟨rfl, gifRecorder_capture_save_roundtrip "vmas_wrapper.gif" 10
    [[[(0:ℚ)]], [[1]], [[2]]] 3 rfl (by simp)⟩

/-- C9: finalizing a Recorder with zero captured frames is a no-op — it
returns successfully with no artifact and never raises an error. -/
theorem gifRecorder_save_empty_noop (r : GifRecorder) (h : r.frames = []) :
    r.save = .ok none := by
  rw [GifRecorder.save, h]
  rfl

/-- C9 witness: an empty recorder finalizes as a no-op. -/
theorem gifRecorder_save_empty_noop_witness :
    (⟨"car_race.gif", 50, []⟩ : GifRecorder).save = .ok none :=
  gifRecorder_save_empty_noop ⟨"car_race.gif", 50, []⟩ rfl

/-- C8: every EnvParams built by the validated constructor satisfies the
space invariant (continuous bound lengths match the shape, discrete spaces
carry only a count — by the shape of SpaceSpec); a malformed description
yields ConfigurationError; every constructed MultiAgentEnvParams has
`num_agents ≥ 1`, with one shared agent EnvParams, and `num_agents < 1`
yields ConfigurationError.  Read-only-ness after construction is intrinsic
to the embedding: no operation mutates an EnvParams. -/
theorem envParams_construction_invariants :
    (∀ a o p, EnvParams.make a o = .ok p →
        p.action = a ∧ p.observation = o ∧
        p.action.wellFormed = true ∧ p.observation.wellFormed = true) ∧
    (∀ a o, (a.wellFormed = false ∨ o.wellFormed = false) →
        EnvParams.make a o = .error .ConfigurationError) ∧
    (∀ n ag mp, MultiAgentEnvParams.make n ag = .ok mp →
        1 ≤ mp.num_agents ∧ mp.agent = ag) ∧
    (∀ ag, MultiAgentEnvParams.make 0 ag = .error .ConfigurationError) := by
  refine ⟨?_, ?_, ?_, ?_⟩
  · intro a o p h
    rw [EnvParams.make] at h
    by_cases hw : (a.wellFormed && o.wellFormed) = true
    · rw [if_pos hw] at h
      cases h
      simp only [Bool.and_eq_true] at hw
      exact ⟨rfl, rfl, hw.1, hw.2⟩
    · rw [if_neg hw] at h
      cases h
  · intro a o h
    rw [EnvParams.make]
    have : (a.wellFormed && o.wellFormed) = false := by
      rcases h with h | h <;> simp [h]
    rw [if_neg (by simp [this])]
  · intro n ag mp h
    rw [MultiAgentEnvParams.make] at h
    by_cases hn : 1 ≤ n
    · rw [if_pos hn] at h
      cases h
      exact ⟨hn, rfl⟩
    · rw [if_neg hn] at h
      cases h
  · intro ag
    rw [MultiAgentEnvParams.make]
    rfl

/-- C8 witness: a well-formed and a malformed construction at concrete
inputs. -/
theorem envParams_construction_invariants_witness :
    (EnvParams.make (.continuous [2] [.fin (-1), .fin (-1)] [.fin 1, .fin 1])
        (.discrete 3)
      = .ok ⟨.continuous [2] [.fin (-1), .fin (-1)] [.fin 1, .fin 1],
             .discrete 3⟩) ∧
    (SpaceSpec.wellFormed (.continuous [2] [.fin 0] [.fin 1, .fin 1]) = false) ∧
    (EnvParams.make (.continuous [2] [.fin 0] [.fin 1, .fin 1]) (.discrete 3)
      = .error .ConfigurationError) ∧
    (MultiAgentEnvParams.make 0 ⟨.discrete 1, .discrete 1⟩
      = .error .ConfigurationError) := by
  refine ⟨by rfl, by decide, ?_, ?_⟩
  · exact (envParams_construction_invariants).2.1
      (.continuous [2] [.fin 0] [.fin 1, .fin 1]) (.discrete 3)
      (Or.inl (by decide))
  · exact (envParams_construction_invariants).2.2.2 ⟨.discrete 1, .discrete 1⟩

/-- Modelled from the spec: the MultiAgentEnvParams that the VmasWrapper
'discovery' adapter's get_parameters() reports, exactly as printed in the
demo notebook: 5 agents, continuous action shape (2,) with bounds
[-1,-1]..[1,1], continuous observation shape (19,) with every observation
bound infinite. -/
def vmasDiscoveryParams : MultiAgentEnvParams :=
  ⟨5,
   ⟨.continuous [2] [.fin (-1), .fin (-1)] [.fin 1, .fin 1],
    .continuous [19] (List.replicate 19 .negInf) (List.replicate 19 .posInf)⟩⟩

/-- Modelled from the spec: VmasWrapper.get_parameters for the 'discovery'
scenario exposes the immutable space description above. -/
def VmasWrapper.get_parameters : MultiAgentEnvParams := vmasDiscoveryParams

/-- C10: the VmasWrapper 'discovery' adapter's get_parameters() returns a
MultiAgentEnvParams whose agent observation space is continuous with
observation_min equal to -inf and observation_max equal to +inf in every
component (so observation bounds are not guaranteed finite and consumers
must handle infinite bounds). -/
theorem vmas_discovery_observation_bounds_infinite :
    ∃ shape lo hi,
      VmasWrapper.get_parameters.agent.observation = .continuous shape lo hi ∧
      lo ≠ [] ∧ lo.length = hi.length ∧
      (∀ b ∈ lo, b = Bound.negInf) ∧ (∀ b ∈ hi, b = Bound.posInf) ∧
      lo.all Bound.isFin = false ∧ hi.all Bound.isFin = false := by
  refine ⟨[19], List.replicate 19 .negInf, List.replicate 19 .posInf,
    rfl, by decide, by decide, ?_, ?_, by decide, by decide⟩
  · intro b hb
    exact List.eq_of_mem_replicate hb
  · intro b hb
    exact List.eq_of_mem_replicate hb

/-- An Observation conforms to a space description when its length matches
the flattened observation shape. -/
def Obs.conforms (o : Obs) : SpaceSpec → Bool
  | .continuous shape _ _ => o.length == flatSize shape
  | .discrete _ => true

/-- Modelled from the spec: the Environment Adapter contract — a backend
normalized to `reset`, `step`, `render` and an immutable space
description, over an internal simulator state `S`.  Each operation may
fail with an error from the taxonomy. -/
structure Adapter (S : Type) where
  params : MultiAgentEnvParams
  init : S
  reset : S → Except RLError (S × Obs)
  step : S → Action → Except RLError (S × Obs × ℚ × Bool)
  render : S → Except RLError (Option Frame)

/-- Modelled from the spec: get_parameters exposes the immutable space
description. -/
def Adapter.get_parameters {S : Type} (a : Adapter S) : MultiAgentEnvParams :=
  a.params

/-- Modelled from the spec: an adapter whose `step` validates the Action's
shape and bounds against its EnvParams and fails with InvalidAction when
they are violated. -/
def Adapter.checked {S : Type} (env : Adapter S) : Adapter S :=
  { env with
    step := fun s a =>
      if a.conforms env.params.agent.action then env.step s a
      else .error .InvalidAction }

/-- Modelled from the spec: the Runner's state machine states; a failed
run ends in the DONE-with-error state, distinguishable from normal
DONE. -/
inductive RunnerState where
  | IDLE
  | RUNNING
  | DONE
  | DONE_ERROR (e : RLError)
deriving DecidableEq, Repr

/-- Observable events of one `run()` in order: the IDLE→RUNNING
transition, the adapter calls, the Recorder calls, and the RUNNING→DONE
transition. -/
inductive Event where
  | toRunning
  | resetEv
  | selectEv
  | stepEv
  | renderEv
  | captureEv
  | toDone
  | finalizeEv
deriving DecidableEq, Repr

/-- Modelled from the spec: the Runner owns the adapter, the policy and an
optional Recorder. -/
structure Runner (S : Type) where
  env : Adapter S
  policy : Nat → Obs → Action
  recorder : Option GifRecorder
  state : RunnerState

/-- The observable outcome of one `run()`: final state, final Recorder
buffer, the written artifact (if any), the event trace, and the number of
completed steps. -/
structure RunResult where
  state : RunnerState
  recorder : Option GifRecorder
  artifact : Option Artifact
  events : List Event
  steps : Nat
deriving DecidableEq, Repr

/-- Modelled from the spec: the Runner's episode loop — per iteration ask
the Policy for an Action, call the adapter's `step`, optionally call
`render` and forward the Frame to the Recorder via `capture`, and stop on
`done`, on an adapter error, or when the external step budget runs out. -/
def Runner.runLoop {S : Type} (env : Adapter S) (policy : Nat → Obs → Action) :
    Nat → S → Obs → Option GifRecorder → List Event → Nat →
      RunnerState × Option GifRecorder × List Event × Nat
  | 0, _, _, rec, events, i => (.DONE, rec, events, i)
  | fuel + 1, s, obs, rec, events, i =>
    match env.step s (policy i obs) with
    | .error e => (.DONE_ERROR e, rec, events ++ [.selectEv, .stepEv], i)
    | .ok (s', obs', _, done) =>
      match rec with
      | none =>
        if done then (.DONE, none, events ++ [.selectEv, .stepEv], i + 1)
        else Runner.runLoop env policy fuel s' obs' none
          (events ++ [.selectEv, .stepEv]) (i + 1)
      | some rc =>
        match env.render s' with
        | .error e =>
            (.DONE_ERROR e, some rc,
             events ++ [.selectEv, .stepEv, .renderEv], i + 1)
        | .ok none =>
          if done then
            (.DONE, some rc, events ++ [.selectEv, .stepEv, .renderEv], i + 1)
          else Runner.runLoop env policy fuel s' obs' (some rc)
            (events ++ [.selectEv, .stepEv, .renderEv]) (i + 1)
        | .ok (some f) =>
          if done then
            (.DONE, some (rc.capture f),
             events ++ [.selectEv, .stepEv, .renderEv, .captureEv], i + 1)
          else Runner.runLoop env policy fuel s' obs' (some (rc.capture f))
            (events ++ [.selectEv, .stepEv, .renderEv, .captureEv]) (i + 1)

/-- Modelled from the spec: `run()` — transitions IDLE→RUNNING, calls the
adapter's `reset`, drives the episode loop, and on completion transitions
RUNNING→DONE and finalizes the Recorder when present.  An adapter error
propagates: the run ends in DONE_ERROR and nothing is flushed, so no
partial artifact exists. -/
def Runner.run {S : Type} (r : Runner S) (max_steps : Nat) : RunResult :=
  match r.env.reset r.env.init with
  | .error e => ⟨.DONE_ERROR e, r.recorder, none, [.toRunning, .resetEv], 0⟩
  | .ok (s, obs) =>
    match Runner.runLoop r.env r.policy max_steps s obs r.recorder
        [.toRunning, .resetEv] 0 with
    | (.IDLE, rec, events, n) => ⟨.IDLE, rec, none, events, n⟩
    | (.RUNNING, rec, events, n) => ⟨.RUNNING, rec, none, events, n⟩
    | (.DONE_ERROR e, rec, events, n) =>
        ⟨.DONE_ERROR e, rec, none, events, n⟩
    | (.DONE, rec, events, n) =>
      match rec with
      | none => ⟨.DONE, none, none, events ++ [.toDone], n⟩
      | some rc =>
        match rc.save with
        | .ok art => ⟨.DONE, some rc, art, events ++ [.toDone, .finalizeEv], n⟩
        | .error e =>
            ⟨.DONE_ERROR e, some rc, none, events ++ [.toDone, .finalizeEv], n⟩

/-- The Runner as left behind by `run()`: its state field holds the run's
final state. -/
def Runner.afterRun {S : Type} (r : Runner S) (max_steps : Nat) : Runner S :=
  { r with state := (r.run max_steps).state }

/-- Modelled from the spec: a step-capped adapter over a counter state —
`reset` returns the initial observation, `step` advances the counter and
reports done when the backend's own signal fires or the step cap is
reached by a simple counter comparison, `render` produces a frame. -/
def cappedEnv (params : MultiAgentEnvParams) (max_steps : Nat)
    (doneSig : Nat → Bool) (frameAt : Nat → Frame) (obs0 : Obs) :
    Adapter Nat :=
  { params := params
    init := 0
    reset := fun _ => .ok (0, obs0)
    step := fun n _ =>
      .ok (n + 1, obs0, 0, doneSig (n + 1) || decide (max_steps ≤ n + 1))
    render := fun n => .ok (some (frameAt n)) }

/-- A Runner over a step-capped adapter with a fresh GifRecorder. -/
def cappedRunner (params : MultiAgentEnvParams) (max_steps : Nat)
    (doneSig : Nat → Bool) (frameAt : Nat → Frame) (obs0 : Obs)
    (policy : Nat → Obs → Action) (filename : String) (fps : ℚ) :
    Runner Nat :=
  ⟨cappedEnv params max_steps doneSig frameAt obs0, policy,
   some ⟨filename, fps, []⟩, .IDLE⟩

/-- An adapter whose `step` always fails, for exercising error
propagation. -/
def errEnv (params : MultiAgentEnvParams) (e : RLError) (obs0 : Obs) :
    Adapter Nat :=
  { params := params
    init := 0
    reset := fun _ => .ok (0, obs0)
    step := fun _ _ => .error e
    render := fun _ => .ok none }

/-- The shape of an episode loop's event trace: a sequence of
select/step(/render(/capture)) chunks. -/
inductive LoopTrace : List Event → Prop where
  | done : LoopTrace []
  | plain (t) : LoopTrace t → LoopTrace (.selectEv :: .stepEv :: t)
  | rendered (t) : LoopTrace t →
      LoopTrace (.selectEv :: .stepEv :: .renderEv :: t)
  | captured (t) : LoopTrace t →
      LoopTrace (.selectEv :: .stepEv :: .renderEv :: .captureEv :: t)

lemma save_ok (r : GifRecorder) : ∃ art, r.save = .ok art := by
  rw [GifRecorder.save]
  by_cases h : r.frames.isEmpty
  · exact ⟨none, by rw [if_pos h]⟩
  · exact ⟨some ⟨r.filename, r.frames, 1 / r.fps⟩, by rw [if_neg h]⟩

lemma loopTrace_count_reset {t : List Event} (h : LoopTrace t) :
    t.count .resetEv = 0 := by
  induction h with
  | done => rfl
  | plain t _ ih => simp [List.count_cons, ih]
  | rendered t _ ih => simp [List.count_cons, ih]
  | captured t _ ih => simp [List.count_cons, ih]

lemma runLoop_events {S : Type} (env : Adapter S)
    (policy : Nat → Obs → Action) (fuel : Nat) (s : S) (obs : Obs)
    (rec : Option GifRecorder) (events : List Event) (i : Nat) :
    ∃ body,
      (Runner.runLoop env policy fuel s obs rec events i).2.2.1
        = events ++ body ∧ LoopTrace body := by
  induction fuel generalizing s obs rec events i with
  | zero => exact ⟨[], by simp [Runner.runLoop], LoopTrace.done⟩
  | succ fuel ih =>
    rw [Runner.runLoop]
    split
    · exact ⟨[.selectEv, .stepEv], rfl, LoopTrace.plain _ LoopTrace.done⟩
    · rename_i s' obs' rew done heq
      split
      · split
        · exact ⟨[.selectEv, .stepEv], rfl, LoopTrace.plain _ LoopTrace.done⟩
        · obtain ⟨body, hb, ht⟩ :=
            ih s' obs' none (events ++ [.selectEv, .stepEv]) (i + 1)
          refine ⟨.selectEv :: .stepEv :: body, ?_, LoopTrace.plain _ ht⟩
          rw [hb]; simp
      · rename_i rc
        split
        · exact ⟨[.selectEv, .stepEv, .renderEv], rfl,
            LoopTrace.rendered _ LoopTrace.done⟩
        · split
          · exact ⟨[.selectEv, .stepEv, .renderEv], rfl,
              LoopTrace.rendered _ LoopTrace.done⟩
          · obtain ⟨body, hb, ht⟩ := ih s' obs' (some rc)
              (events ++ [.selectEv, .stepEv, .renderEv]) (i + 1)
            refine ⟨.selectEv :: .stepEv :: .renderEv :: body, ?_,
              LoopTrace.rendered _ ht⟩
            rw [hb]; simp
        · rename_i f heq2
          split
          · exact ⟨[.selectEv, .stepEv, .renderEv, .captureEv], rfl,
              LoopTrace.captured _ LoopTrace.done⟩
          · obtain ⟨body, hb, ht⟩ := ih s' obs' (some (rc.capture f))
              (events ++ [.selectEv, .stepEv, .renderEv, .captureEv]) (i + 1)
            refine ⟨.selectEv :: .stepEv :: .renderEv :: .captureEv :: body,
              ?_, LoopTrace.captured _ ht⟩
            rw [hb]; simp

lemma runLoop_recorder_isSome {S : Type} (env : Adapter S)
    (policy : Nat → Obs → Action) (fuel : Nat) (s : S) (obs : Obs)
    (rec : Option GifRecorder) (events : List Event) (i : Nat) :
    (Runner.runLoop env policy fuel s obs rec events i).2.1.isSome
      = rec.isSome := by
  induction fuel generalizing s obs rec events i with
  | zero => simp [Runner.runLoop]
  | succ fuel ih =>
    rw [Runner.runLoop]
    split
    · rfl
    · rename_i s' obs' rew done heq
      split
      · split
        · rfl
        · simpa using ih s' obs' none _ (i + 1)
      · rename_i rc
        split
        · rfl
        · split
          · rfl
          · simpa using ih s' obs' (some rc) _ (i + 1)
        · rename_i f heq2
          split
          · rfl
          · simpa using ih s' obs' (some (rc.capture f)) _ (i + 1)

/-- C3: for every execution of Runner.run in which the adapter raises
during step, reset, or render, nothing is flushed — the run's artifact is
none, so no corrupt partial file exists; and whenever an artifact does
exist, it contains exactly the Recorder's full frame buffer (fully
written). -/
theorem runner_no_corrupt_artifact {S : Type} (r : Runner S) (fuel : Nat) :
    (∀ e, (r.run fuel).state = .DONE_ERROR e → (r.run fuel).artifact = none) ∧
    (∀ a, (r.run fuel).artifact = some a →
        (r.run fuel).state = .DONE ∧
        ∃ rc, (r.run fuel).recorder = some rc ∧ a.frames = rc.frames) := by
  unfold Runner.run
  split
  · exact ⟨fun e h => rfl, fun a ha => by simp at ha⟩
  · split
    · exact ⟨fun e h => by simp at h, fun a ha => by simp at ha⟩
    · exact ⟨fun e h => by simp at h, fun a ha => by simp at ha⟩
    · exact ⟨fun e h => rfl, fun a ha => by simp at ha⟩
    · rename_i rec events n heql
      split
      · exact ⟨fun e h => by simp at h, fun a ha => by simp at ha⟩
      · rename_i rc
        split
        · rename_i art hsave
          refine ⟨fun e h => by simp at h, fun a ha => ⟨rfl, rc, rfl, ?_⟩⟩
          rw [GifRecorder.save] at hsave
          by_cases hemp : rc.frames.isEmpty
          · rw [if_pos hemp] at hsave
            cases hsave
            simp at ha
          · rw [if_neg hemp] at hsave
            cases hsave
            cases ha
            rfl
        · exact ⟨fun e h => rfl, fun a ha => by simp at ha⟩

/-- A Runner over an always-failing adapter, with a recorder present. -/
def errRunner : Runner Nat :=
  ⟨errEnv ⟨1, ⟨.discrete 1, .discrete 1⟩⟩ .InvalidObservation [0],
   fun _ _ => .disc 0, some ⟨"err.gif", 10, []⟩, .IDLE⟩

/-- C3 witness: a run whose adapter raises during step produces no
artifact at all. -/
theorem runner_no_corrupt_artifact_witness :
    (errRunner.run 5).artifact = none :=
  (runner_no_corrupt_artifact errRunner 5).1 .InvalidObservation (by decide)

/-- C2: a run that ends in DONE transitions IDLE→RUNNING, calls the
adapter's reset exactly once and before any step, then repeats
select-action/step(/render/capture-to-Recorder) chunks until done or the
step budget runs out, and finally transitions RUNNING→DONE, finalizing the
Recorder exactly when one is present. -/
theorem runner_run_episode_trace {S : Type} (r : Runner S) (fuel : Nat)
    (hdone : (r.run fuel).state = .DONE) :
    ∃ body,
      (r.run fuel).events
        = .toRunning :: .resetEv ::
            (body ++ (if r.recorder.isSome then [Event.toDone, Event.finalizeEv]
                      else [Event.toDone])) ∧
      LoopTrace body ∧
      (r.run fuel).events.count .resetEv = 1 := by
  have main : (r.run fuel).state = .DONE →
      (∃ body,
        (r.run fuel).events
          = .toRunning :: .resetEv ::
              (body ++ (if r.recorder.isSome then [Event.toDone, Event.finalizeEv]
                        else [Event.toDone])) ∧
        LoopTrace body ∧
        (r.run fuel).events.count .resetEv = 1) := by
    unfold Runner.run
    split
    · intro h; simp at h
    · rename_i s obs heqr
      have hev := runLoop_events r.env r.policy fuel s obs r.recorder
        [.toRunning, .resetEv] 0
      have hrs := runLoop_recorder_isSome r.env r.policy fuel s obs r.recorder
        [.toRunning, .resetEv] 0
      split
      · intro h; simp at h
      · intro h; simp at h
      · intro h; simp at h
      · rename_i rec events n heql
        rw [heql] at hev hrs
        obtain ⟨body, hb, ht⟩ := hev
        simp only at hb hrs
        split
        · intro h
          have hrec : r.recorder.isSome = false := by simpa using hrs.symm
          refine ⟨body, ?_, ht, ?_⟩
          · rw [hrec]
            subst hb
            simp
          · subst hb
            simp [List.count_append, List.count_cons, loopTrace_count_reset ht]
        · rename_i rc
          split
          · intro h
            have hrec : r.recorder.isSome = true := by simpa using hrs.symm
            refine ⟨body, ?_, ht, ?_⟩
            · rw [hrec]
              subst hb
              simp
            · subst hb
              simp [List.count_append, List.count_cons,
                loopTrace_count_reset ht]
          · intro h; simp at h
  exact main hdone

/-- A Runner over a 2-step-capped adapter with a fresh recorder. -/
def demoRunner : Runner Nat :=
  cappedRunner ⟨1, ⟨.discrete 1, .discrete 1⟩⟩ 2 (fun _ => false)
    (fun _ => [[0]]) [0] (fun _ _ => .disc 0) "demo.gif" 10

/-- C2 witness: the 2-step demo run ends in DONE and its trace has the
episode shape. -/
theorem runner_run_episode_trace_witness :
    (demoRunner.run 5).state = .DONE ∧
    ∃ body,
      (demoRunner.run 5).events
        = .toRunning :: .resetEv ::
            (body ++ (if demoRunner.recorder.isSome
                      then [Event.toDone, Event.finalizeEv]
                      else [Event.toDone])) ∧
      LoopTrace body ∧
      (demoRunner.run 5).events.count .resetEv = 1 :=
  ⟨by decide, runner_run_episode_trace demoRunner 5 (by decide)⟩

lemma run_events_take_two {S : Type} (r : Runner S) (fuel : Nat) :
    (r.run fuel).events.take 2 = [.toRunning, .resetEv] := by
  unfold Runner.run
  split
  · rfl
  · rename_i s obs heqr
    obtain ⟨body, hb, -⟩ := runLoop_events r.env r.policy fuel s obs
      r.recorder [.toRunning, .resetEv] 0
    split
    · rename_i rec events n heql
      rw [heql] at hb
      simp only at hb
      subst hb
      rfl
    · rename_i rec events n heql
      rw [heql] at hb
      simp only at hb
      subst hb
      rfl
    · rename_i e rec events n heql
      rw [heql] at hb
      simp only at hb
      subst hb
      rfl
    · rename_i rec events n heql
      rw [heql] at hb
      simp only at hb
      subst hb
      split
      · rfl
      · split
        · rfl
        · rfl

/-- C4: for an adapter with validating step, any Action violating the
EnvParams' shape or bounds makes step fail with InvalidAction; a Runner
whose policy emits such an Action propagates that same error out of run(),
writes no artifact through the Recorder, and ends in the DONE-with-error
state, which differs from normal DONE. -/
theorem adapter_invalid_action_propagates {S : Type} (env : Adapter S)
    (policy : Nat → Obs → Action) (rec : Option GifRecorder)
    (s0 : S) (obs0 : Obs) (fuel : Nat)
    (hreset : env.reset env.init = .ok (s0, obs0))
    (hbad : (policy 0 obs0).conforms env.params.agent.action = false)
    (hfuel : 1 ≤ fuel) :
    (∀ (s : S) (a : Action), a.conforms env.params.agent.action = false →
        env.checked.step s a = .error .InvalidAction) ∧
    ((⟨env.checked, policy, rec, .IDLE⟩ : Runner S).run fuel).state
        = .DONE_ERROR .InvalidAction ∧
    ((⟨env.checked, policy, rec, .IDLE⟩ : Runner S).run fuel).artifact
        = none ∧
    RunnerState.DONE_ERROR .InvalidAction ≠ RunnerState.DONE := by
  have hstep : ∀ (s : S) (a : Action),
      a.conforms env.params.agent.action = false →
      env.checked.step s a = .error .InvalidAction := by
    intro s a hc
    simp [Adapter.checked, hc]
  obtain ⟨m, rfl⟩ : ∃ m, fuel = m + 1 := ⟨fuel - 1, by omega⟩
  have key :
      ((⟨env.checked, policy, rec, .IDLE⟩ : Runner S).run (m + 1)).state
          = .DONE_ERROR .InvalidAction ∧
      ((⟨env.checked, policy, rec, .IDLE⟩ : Runner S).run (m + 1)).artifact
          = none := by
    unfold Runner.run
    have hres2 : env.checked.reset env.checked.init = .ok (s0, obs0) := hreset
    simp only [hres2]
    rw [Runner.runLoop]
    rw [hstep s0 (policy 0 obs0) hbad]
    exact ⟨rfl, rfl⟩
  exact ⟨hstep, key.1, key.2, by simp⟩

/-- C4 witness: a discrete-1 action space with a policy emitting the
out-of-range action 5. -/
theorem adapter_invalid_action_propagates_witness :
    (∀ (s : Nat) (a : Action),
        a.conforms (cappedEnv ⟨1, ⟨.discrete 1, .discrete 1⟩⟩ 2
            (fun _ => false) (fun _ => [[0]]) [0]).params.agent.action
          = false →
        (cappedEnv ⟨1, ⟨.discrete 1, .discrete 1⟩⟩ 2 (fun _ => false)
            (fun _ => [[0]]) [0]).checked.step s a
          = .error .InvalidAction) ∧
    ((⟨(cappedEnv ⟨1, ⟨.discrete 1, .discrete 1⟩⟩ 2 (fun _ => false)
          (fun _ => [[0]]) [0]).checked,
       fun _ _ => .disc 5, some ⟨"bad.gif", 10, []⟩, .IDLE⟩ :
        Runner Nat).run 1).state = .DONE_ERROR .InvalidAction ∧
    ((⟨(cappedEnv ⟨1, ⟨.discrete 1, .discrete 1⟩⟩ 2 (fun _ => false)
          (fun _ => [[0]]) [0]).checked,
       fun _ _ => .disc 5, some ⟨"bad.gif", 10, []⟩, .IDLE⟩ :
        Runner Nat).run 1).artifact = none ∧
    RunnerState.DONE_ERROR .InvalidAction ≠ RunnerState.DONE :=
  adapter_invalid_action_propagates
    (cappedEnv ⟨1, ⟨.discrete 1, .discrete 1⟩⟩ 2 (fun _ => false)
      (fun _ => [[0]]) [0])
    (fun _ _ => .disc 5) (some ⟨"bad.gif", 10, []⟩) 0 [0] 1
    rfl (by decide) (by decide)

lemma cappedEnv_runLoop (params : MultiAgentEnvParams) (cap : Nat)
    (doneSig : Nat → Bool) (frameAt : Nat → Frame) (obs0 : Obs)
    (policy : Nat → Obs → Action) :
    ∀ (fuel n : Nat) (obs : Obs) (rc : GifRecorder) (events : List Event)
      (i : Nat), n < cap →
      ∃ (m : Nat) (rc' : GifRecorder) (evs : List Event),
        Runner.runLoop (cappedEnv params cap doneSig frameAt obs0) policy
            fuel n obs (some rc) events i
          = (.DONE, some rc', evs, i + m) ∧
        rc'.frames.length = rc.frames.length + m ∧
        m ≤ cap - n ∧ (1 ≤ fuel → 1 ≤ m) := by
  intro fuel
  induction fuel with
  | zero =>
    intro n obs rc events i hn
    exact ⟨0, rc, events, by simp [Runner.runLoop], by simp, by omega,
      by omega⟩
  | succ fuel ih =>
    intro n obs rc events i hn
    rw [Runner.runLoop]
    simp only [cappedEnv]
    by_cases hdone : (doneSig (n + 1) || decide (cap ≤ n + 1)) = true
    · rw [if_pos hdone]
      refine ⟨1, rc.capture (frameAt (n + 1)), _, rfl, ?_, by omega, by omega⟩
      simp [GifRecorder.capture]
    · rw [if_neg hdone]
      have hlt : n + 1 < cap := by
        simp only [Bool.or_eq_true, decide_eq_true_eq] at hdone
        omega
      obtain ⟨m', rc', evs, hEq, hlen, hle, -⟩ :=
        ih (n + 1) obs0 (rc.capture (frameAt (n + 1)))
          (events ++ [.selectEv, .stepEv, .renderEv, .captureEv]) (i + 1) hlt
      simp only [cappedEnv] at hEq
      refine ⟨m' + 1, rc', evs, ?_, ?_, by omega, by omega⟩
      · rw [hEq]
        have : i + 1 + m' = i + (m' + 1) := by omega
        rw [this]
      · have hcap : (rc.capture (frameAt (n + 1))).frames.length
            = rc.frames.length + 1 := by
          simp [GifRecorder.capture]
        rw [hlen, hcap]
        omega

/-- C6: a Runner over an adapter capped at max_steps = 100 (enforced by a
counter comparison) with rendering enabled ends in normal DONE within 100
steps, and its Recorder ends with a frame count that is positive and at
most 100, all flushed into the artifact. -/
theorem runner_max_steps_bounded (params : MultiAgentEnvParams)
    (doneSig : Nat → Bool) (frameAt : Nat → Frame) (obs0 : Obs)
    (policy : Nat → Obs → Action) (filename : String) (fps : ℚ)
    (fuel : Nat) (hfuel : 1 ≤ fuel) :
    ((cappedRunner params 100 doneSig frameAt obs0 policy filename
        fps).run fuel).state = .DONE ∧
    ((cappedRunner params 100 doneSig frameAt obs0 policy filename
        fps).run fuel).steps ≤ 100 ∧
    ∃ rc a,
      ((cappedRunner params 100 doneSig frameAt obs0 policy filename
          fps).run fuel).recorder = some rc ∧
      ((cappedRunner params 100 doneSig frameAt obs0 policy filename
          fps).run fuel).artifact = some a ∧
      a.frame_count = rc.frames.length ∧
      1 ≤ rc.frames.length ∧ rc.frames.length ≤ 100 := by
  obtain ⟨m, rc', evs, hEq, hlen, hle, hpos⟩ :=
    cappedEnv_runLoop params 100 doneSig frameAt obs0 policy fuel 0 obs0
      ⟨filename, fps, []⟩ [.toRunning, .resetEv] 0 (by omega)
  have hm1 : 1 ≤ m := hpos hfuel
  have hne : rc'.frames ≠ [] := by
    intro h
    rw [h] at hlen
    simp at hlen
    omega
  have hsave : rc'.save
      = .ok (some ⟨rc'.filename, rc'.frames, 1 / rc'.fps⟩) := by
    rw [GifRecorder.save,
      if_neg (by simpa [List.isEmpty_iff] using hne)]
  have hres : (cappedEnv params 100 doneSig frameAt obs0).reset
      (cappedEnv params 100 doneSig frameAt obs0).init = .ok (0, obs0) := rfl
  have hlen' : rc'.frames.length = m := by simpa using hlen
  have hrun : (cappedRunner params 100 doneSig frameAt obs0 policy filename
        fps).run fuel
      = ⟨.DONE, some rc', some ⟨rc'.filename, rc'.frames, 1 / rc'.fps⟩,
         evs ++ [.toDone, .finalizeEv], 0 + m⟩ := by
    unfold Runner.run
    simp only [cappedRunner, hres]
    rw [hEq]
    simp only [hsave]
  rw [hrun]
  exact ⟨rfl, by show 0 + m ≤ 100; omega, rc',
    ⟨rc'.filename, rc'.frames, 1 / rc'.fps⟩,
    rfl, rfl, rfl, by omega, by omega⟩

/-- C6 witness: a concrete capped runner with the backend never signalling
done, run with a budget of 3. -/
theorem runner_max_steps_bounded_witness :
    ((cappedRunner ⟨1, ⟨.discrete 1, .discrete 1⟩⟩ 100 (fun _ => false)
        (fun _ => [[0]]) [0] (fun _ _ => .disc 0) "w.gif" 10).run 3).state
      = .DONE ∧
    ((cappedRunner ⟨1, ⟨.discrete 1, .discrete 1⟩⟩ 100 (fun _ => false)
        (fun _ => [[0]]) [0] (fun _ _ => .disc 0) "w.gif" 10).run 3).steps
      ≤ 100 ∧
    ∃ rc a,
      ((cappedRunner ⟨1, ⟨.discrete 1, .discrete 1⟩⟩ 100 (fun _ => false)
          (fun _ => [[0]]) [0] (fun _ _ => .disc 0) "w.gif" 10).run
          3).recorder = some rc ∧
      ((cappedRunner ⟨1, ⟨.discrete 1, .discrete 1⟩⟩ 100 (fun _ => false)
          (fun _ => [[0]]) [0] (fun _ _ => .disc 0) "w.gif" 10).run
          3).artifact = some a ∧
      a.frame_count = rc.frames.length ∧
      1 ≤ rc.frames.length ∧ rc.frames.length ≤ 100 :=
  runner_max_steps_bounded ⟨1, ⟨.discrete 1, .discrete 1⟩⟩ (fun _ => false)
    (fun _ => [[0]]) [0] (fun _ _ => .disc 0) "w.gif" 10 3 (by decide)

/-- C7: the model adapter's reset is idempotent — called twice in a row
with no intervening step it returns a conforming Observation each time
with no error — and a Runner that has finished a run re-enters
IDLE→RUNNING cleanly on the next run(), executing an identical fresh
episode (run() reads none of the previous final state). -/
theorem adapter_reset_idempotent_runner_rerun {S : Type}
    (params : MultiAgentEnvParams) (cap : Nat) (doneSig : Nat → Bool)
    (frameAt : Nat → Frame) (obs0 : Obs) (s : Nat)
    (r : Runner S) (fuel : Nat)
    (hobs : Obs.conforms obs0 params.agent.observation = true) :
    ((cappedEnv params cap doneSig frameAt obs0).reset s = .ok (0, obs0) ∧
     (cappedEnv params cap doneSig frameAt obs0).reset 0 = .ok (0, obs0) ∧
     Obs.conforms obs0 params.agent.observation = true) ∧
    ((r.afterRun fuel).run fuel = r.run fuel ∧
     ((r.afterRun fuel).run fuel).events.take 2
        = [.toRunning, .resetEv]) := by
  refine ⟨⟨rfl, rfl, hobs⟩, ?_, ?_⟩
  · cases r
    rfl
  · exact run_events_take_two (r.afterRun fuel) fuel

/-- C7 witness: the demo runner rerun after its first completed run. -/
theorem adapter_reset_idempotent_runner_rerun_witness :
    ((cappedEnv ⟨1, ⟨.discrete 1, .discrete 1⟩⟩ 2 (fun _ => false)
        (fun _ => [[0]]) [0]).reset 7 = .ok (0, [0]) ∧
     (cappedEnv ⟨1, ⟨.discrete 1, .discrete 1⟩⟩ 2 (fun _ => false)
        (fun _ => [[0]]) [0]).reset 0 = .ok (0, [0]) ∧
     Obs.conforms [0] (⟨1, ⟨.discrete 1, .discrete 1⟩⟩ :
        MultiAgentEnvParams).agent.observation = true) ∧
    ((demoRunner.afterRun 5).run 5 = demoRunner.run 5 ∧
     ((demoRunner.afterRun 5).run 5).events.take 2
        = [.toRunning, .resetEv]) :=
  adapter_reset_idempotent_runner_rerun ⟨1, ⟨.discrete 1, .discrete 1⟩⟩ 2
    (fun _ => false) (fun _ => [[0]]) [0] 7 demoRunner 5 (by decide)

end PrtRL
